import Mathlib

/-!
# A hand-written `call`: `Function.prototype.myCall`

Shallow embedding of `面试/code/.history/JavaScript中的this/1-手写call方法_20240202214103.js`.

The source is a single JavaScript function,

    Function.prototype.myCall = function(thisArg,...args) {
      const key = Symbol('key')
      thisArg[key] = this
      const res = thisArg[key](...args)
      delete thisArg[key]
      return res
    }

followed by a small demo (`person`, `func`, `func.myCall(person,1,11)`).

The embedding makes the JavaScript store explicit: a world holds the heap of
objects (own data properties with their attributes, and the extensible flag),
the counter from which `Symbol()` draws fresh symbols, and the console.  The
file is a classic script without a `'use strict'` directive, so the operations
follow sloppy-mode semantics: an assignment or a `delete` that the object
rejects is silently ignored, and only a `null`/`undefined` base or a call of a
non-callable value raises a `TypeError`.
-/

namespace MyCall

/-! ## Data model -/

/-- Property keys: strings, and symbols identified by their creation index
(the description, `'key'` in `Symbol('key')`, is carried along). -/
inductive Key where
  | str (name : String)
  | sym (id : Nat) (desc : String)
  deriving DecidableEq

/-- JavaScript values.  Numbers are modelled by integers (exact inside the
safe-integer range) plus `nan`; objects and functions are heap references. -/
inductive Val where
  | undefined
  | null
  | bool (b : Bool)
  | num (n : Int)
  | nan
  | str (s : String)
  | sym (id : Nat) (desc : String)
  | ref (addr : Nat)
  deriving DecidableEq

/-- Data property: its value and the three attributes. -/
structure Slot where
  value : Val
  writable : Bool
  enumerable : Bool
  configurable : Bool
  deriving DecidableEq

/-- Ordinary object: own properties in creation order and the extensible flag. -/
structure Obj where
  props : List (Key × Slot)
  extensible : Bool
  deriving DecidableEq

/-- The store: heap objects by address, the next unused symbol index, and the
lines written by `console.log` (one list of values per call). -/
structure World where
  objs : List (Nat × Obj)
  nextSym : Nat
  console : List (List Val)
  deriving DecidableEq

/-- What can be thrown: the built-in `TypeError` raised by the language itself,
or any value thrown by user code. -/
inductive Exn where
  | typeError
  | thrown (v : Val)
  deriving DecidableEq

/-- Completion of a call: a returned value or a thrown exception. -/
inductive Completion where
  | normal (v : Val)
  | throw (e : Exn)
  deriving DecidableEq

/-- Behaviour of a JavaScript function: from its `this` value, its argument
list and the store to a completion and the store it leaves. -/
abbrev Fn := Val → List Val → World → Completion × World

/-- The callable objects: the behaviour behind each function object's address
(the internal `[[Call]]` slot, which no code can change). -/
abbrev Prog := Nat → Option Fn

/-- One function invocation: callee address, `this` value, argument list. -/
structure CallRecord where
  callee : Nat
  thisValue : Val
  args : List Val
  deriving DecidableEq

/-- Outcome of running `myCall`: its completion, the store it leaves, the
binding key it generated, and the invocations it performed. -/
structure Run where
  result : Completion
  world : World
  key : Key
  calls : List CallRecord

/-! ## Objects and the store -/

/-- Own property lookup. -/
def Obj.lookup (o : Obj) (k : Key) : Option Slot :=
  o.props.lookup k

/-- Own property keys, symbols included, in creation order. -/
def Obj.keys (o : Obj) : List Key :=
  o.props.map Prod.fst

/-- Whether `k` is an own property. -/
def Obj.hasOwn (o : Obj) (k : Key) : Bool :=
  (o.lookup k).isSome

/-- Assignment `o[k] = v` on an ordinary object, sloppy mode: an existing
writable property gets the new value, a missing one is created (writable,
enumerable, configurable) when the object is extensible, and otherwise the
assignment is ignored.  Only own properties are consulted: the helper assigns
under a symbol it has just created, which no prototype can hold. -/
def Obj.set (o : Obj) (k : Key) (v : Val) : Obj :=
  match o.lookup k with
  | some s =>
    if s.writable then
      { o with props := o.props.map (fun p => if p.1 = k then (p.1, { p.2 with value := v }) else p) }
    else o
  | none =>
    if o.extensible then { o with props := o.props ++ [(k, ⟨v, true, true, true⟩)] }
    else o

/-- Operator `delete o[k]` on an ordinary object, sloppy mode: a configurable
property is removed, a non-configurable one stays (the operator yields `false`
and nothing is thrown). -/
def Obj.delete (o : Obj) (k : Key) : Obj :=
  match o.lookup k with
  | some s =>
    if s.configurable then { o with props := o.props.filter (fun p => !(p.1 == k)) }
    else o
  | none => o

/-- Object stored at an address. -/
def World.getObj (w : World) (a : Nat) : Option Obj :=
  w.objs.lookup a

/-- Replace the object stored at an address. -/
def World.setObj (w : World) (a : Nat) (o : Obj) : World :=
  { w with objs := w.objs.map (fun p => if p.1 = a then (p.1, o) else p) }

/-! ## The language operations used by `myCall` -/

/-- Call `Symbol(desc)`: a symbol never handed out before. -/
def newSymbol (desc : String) (w : World) : Key × World :=
  (Key.sym w.nextSym desc, { w with nextSym := w.nextSym + 1 })

/-- Statement `base[k] = v`.  A `null` or `undefined` base throws a `TypeError`;
on any other primitive the assignment has no effect. -/
def putValue (base : Val) (k : Key) (v : Val) (w : World) : Except Exn World :=
  match base with
  | Val.undefined => Except.error Exn.typeError
  | Val.null => Except.error Exn.typeError
  | Val.ref a =>
    match w.getObj a with
    | some o => Except.ok (w.setObj a (o.set k v))
    | none => Except.ok w
  | _ => Except.ok w

/-- Expression `base[k]`, for a key that only `base` itself can hold. -/
def getValue (base : Val) (k : Key) (w : World) : Except Exn Val :=
  match base with
  | Val.undefined => Except.error Exn.typeError
  | Val.null => Except.error Exn.typeError
  | Val.ref a =>
    match w.getObj a with
    | some o =>
      match o.lookup k with
      | some s => Except.ok s.value
      | none => Except.ok Val.undefined
    | none => Except.ok Val.undefined
  | _ => Except.ok Val.undefined

/-- Statement `delete base[k]`. -/
def deleteProp (base : Val) (k : Key) (w : World) : Except Exn World :=
  match base with
  | Val.undefined => Except.error Exn.typeError
  | Val.null => Except.error Exn.typeError
  | Val.ref a =>
    match w.getObj a with
    | some o => Except.ok (w.setObj a (o.delete k))
    | none => Except.ok w
  | _ => Except.ok w

/-- The function behind a value, when the value is callable. -/
def callee (prog : Prog) : Val → Option (Nat × Fn)
  | Val.ref a =>
    match prog a with
    | some F => some (a, F)
    | none => none
  | _ => none

/-! ## `Function.prototype.myCall` -/

/-- The body of `Function.prototype.myCall = function(thisArg,...args) {...}`.
`thisVal` is the function's own `this` (the target `myCall` was invoked on) and
`argv` the full argument list: `thisArg` is its first element and the rest
parameter `args` collects the others. -/
def myCall (prog : Prog) (thisVal : Val) (argv : List Val) (w : World) : Run :=
  let thisArg := argv.headD Val.undefined
  let args := argv.tail
  -- const key = Symbol('key')
  let (key, w1) := newSymbol "key" w
  -- thisArg[key] = this
  match putValue thisArg key thisVal w1 with
  | Except.error e => ⟨Completion.throw e, w1, key, []⟩
  | Except.ok w2 =>
    -- const res = thisArg[key](...args)
    match getValue thisArg key w2 with
    | Except.error e => ⟨Completion.throw e, w2, key, []⟩
    | Except.ok fv =>
      match callee prog fv with
      | none => ⟨Completion.throw Exn.typeError, w2, key, []⟩
      | some (a, F) =>
        match F thisArg args w2 with
        | (Completion.throw e, w3) => ⟨Completion.throw e, w3, key, [⟨a, thisArg, args⟩]⟩
        | (Completion.normal res, w3) =>
          -- delete thisArg[key]
          match deleteProp thisArg key w3 with
          | Except.error e => ⟨Completion.throw e, w3, key, [⟨a, thisArg, args⟩]⟩
          | Except.ok w4 =>
            -- return res
            ⟨Completion.normal res, w4, key, [⟨a, thisArg, args⟩]⟩

/-- The world in which the target runs when `myCall` is applied to `thisVal`
with receiver object `o` at address `r`: one symbol has been drawn and the
target has been stored on the receiver under it. -/
def invocationWorld (thisVal : Val) (r : Nat) (o : Obj) (w : World) : World :=
  ({ w with nextSym := w.nextSym + 1 } : World).setObj r (o.set (Key.sym w.nextSym "key") thisVal)

/-! ## Invariants and predicates used in the statements -/

/-- A key that exists when the symbol counter stands at `n`: any string, or a
symbol created earlier. -/
def Key.belowSym (n : Nat) : Key → Bool
  | Key.sym i _ => decide (i < n)
  | Key.str _ => true

/-- Every symbol key of the object was created before the counter reached `n`.
With `n` the current counter this holds of every object of a running program,
see `World.symsFresh`. -/
def Obj.symsBelow (o : Obj) (n : Nat) : Bool :=
  o.props.all (fun p => p.1.belowSym n)

/-- Store invariant of a running program: a symbol exists only once `Symbol()` has
returned it, so every symbol key in the heap lies below the counter. -/
def World.symsFresh (w : World) : Bool :=
  w.objs.all (fun p => p.2.symsBelow w.nextSym)

/-- The object as its users see it when the counter stood at `n`: without the
properties stored under symbols created since. -/
def Obj.viewBelow (n : Nat) (o : Obj) : Obj :=
  { o with props := o.props.filter (fun p => p.1.belowSym n) }

/-- Whether `delete o[k]` can remove the property: it is configurable, or
there is nothing to remove. -/
def Obj.deletable (o : Obj) (k : Key) : Bool :=
  match o.lookup k with
  | some s => s.configurable
  | none => true

/-- Receivers that cannot take a new property: `null`, `undefined`, the other
primitives, and objects that are not extensible. -/
def rejectsProps (w : World) : Val → Bool
  | Val.ref a =>
    match w.getObj a with
    | some o => !o.extensible
    | none => false
  | _ => true

/-! ## The demo of the source file -/

/-- Call `console.log(...vs)`. -/
def consoleLog (vs : List Val) (w : World) : World :=
  { w with console := w.console ++ [vs] }

/-- String conversion used by `+`: an object operand is rendered the way a plain
object with the built-in conversions is, a symbol throws. -/
def toStr : Val → Except Exn String
  | Val.undefined => Except.ok "undefined"
  | Val.null => Except.ok "null"
  | Val.bool b => Except.ok (if b then "true" else "false")
  | Val.num n => Except.ok (toString n)
  | Val.nan => Except.ok "NaN"
  | Val.str s => Except.ok s
  | Val.sym _ _ => Except.error Exn.typeError
  | Val.ref _ => Except.ok "[object Object]"

/-- Numeric conversion of the non-string primitives; `none` stands for NaN. -/
def toNum : Val → Except Exn (Option Int)
  | Val.null => Except.ok (some 0)
  | Val.bool b => Except.ok (some (if b then 1 else 0))
  | Val.num n => Except.ok (some n)
  | Val.sym _ _ => Except.error Exn.typeError
  | _ => Except.ok none

/-- Whether the operand makes `+` a string concatenation. -/
def isStringy : Val → Bool
  | Val.str _ => true
  | Val.ref _ => true
  | _ => false

/-- The operator `a + b`. -/
def jsAdd (a b : Val) : Except Exn Val :=
  if isStringy a || isStringy b then
    match toStr a, toStr b with
    | Except.ok x, Except.ok y => Except.ok (Val.str (x ++ y))
    | Except.error e, _ => Except.error e
    | _, Except.error e => Except.error e
  else
    match toNum a, toNum b with
    | Except.ok (some x), Except.ok (some y) => Except.ok (Val.num (x + y))
    | Except.ok _, Except.ok _ => Except.ok Val.nan
    | Except.error e, _ => Except.error e
    | _, Except.error e => Except.error e

/-- The demo function
`function func(num1,num2) { console.log(this); console.log(num1,num2); return num1+num2 }`;
a parameter without a matching argument is `undefined`. -/
def func : Fn := fun this args w =>
  let num1 := args.getD 0 Val.undefined
  let num2 := args.getD 1 Val.undefined
  let w1 := consoleLog [this] w
  let w2 := consoleLog [num1, num2] w1
  match jsAdd num1 num2 with
  | Except.ok v => (Completion.normal v, w2)
  | Except.error e => (Completion.throw e, w2)

/-- Address of the demo object `person`. -/
def personAddr : Nat := 0

/-- Address of the function object `func`. -/
def funcAddr : Nat := 1

/-- The object `const person = { name:'haha', age:18 }`. -/
def person : Obj :=
  { props := [(Key.str "name", ⟨Val.str "haha", true, true, true⟩),
              (Key.str "age", ⟨Val.num 18, true, true, true⟩)],
    extensible := true }

/-- The store when the demo reaches `func.myCall(person,1,11)`; the
bookkeeping properties of the function object play no role and are left out. -/
def demoWorld : World :=
  { objs := [(personAddr, person), (funcAddr, { props := [], extensible := true })],
    nextSym := 0,
    console := [] }

/-- The only callable object of the demo is `func`. -/
def demoProg : Prog := fun a => if a = funcAddr then some func else none

/-- The call `func.myCall(person,1,11)`. -/
def demoRun : Run :=
  myCall demoProg (Val.ref funcAddr) [Val.ref personAddr, Val.num 1, Val.num 11] demoWorld

/-- The console after the last line of the script, `console.log('返回值：',res)`. -/
def demoConsole : List (List Val) :=
  match demoRun.result with
  | Completion.normal res => (consoleLog [Val.str "返回值：", res] demoRun.world).console
  | Completion.throw _ => demoRun.world.console

/-! ## Sample functions and stores used to instantiate the statements -/

/-- A program whose only callable object, at `funcAddr`, behaves as `F`. -/
def only (F : Fn) : Prog := fun a => if a = funcAddr then some F else none

/-- Sample target `function () { return this }`. -/
def retThis : Fn := fun this _ w => (Completion.normal this, w)

/-- Sample target `function () { throw 'boom' }`. -/
def thrower : Fn := fun _ _ w => (Completion.throw (Exn.thrown (Val.str "boom")), w)

/-- Sample target `function (n) { this.age = n }`. -/
def setAge : Fn := fun this args w =>
  match putValue this (Key.str "age") (args.getD 0 Val.undefined) w with
  | Except.ok w1 => (Completion.normal Val.undefined, w1)
  | Except.error e => (Completion.throw e, w)

/-- Effect of `Object.freeze(o)`: no property can be added, changed or removed. -/
def Obj.freeze (o : Obj) : Obj :=
  { props := o.props.map (fun p => (p.1, { p.2 with writable := false, configurable := false })),
    extensible := false }

/-- Sample target `function () { Object.freeze(this) }`. -/
def freezeThis : Fn := fun this _ w =>
  match this with
  | Val.ref a =>
    match w.getObj a with
    | some o => (Completion.normal Val.undefined, w.setObj a o.freeze)
    | none => (Completion.normal Val.undefined, w)
  | _ => (Completion.normal Val.undefined, w)

/-- The value of a symbol key; `undefined` for a string key. -/
def Key.symbolValue : Key → Val
  | Key.sym i d => Val.sym i d
  | Key.str _ => Val.undefined

/-- Whether the key is a symbol. -/
def Key.isSym : Key → Bool
  | Key.sym _ _ => true
  | Key.str _ => false

/-- Sample target `function () { return Object.getOwnPropertySymbols(this)[0] }`,
for an object as `this`. -/
def firstSymbol : Fn := fun this _ w =>
  match this with
  | Val.ref a =>
    match w.getObj a with
    | some o =>
      match o.keys.find? Key.isSym with
      | some k => (Completion.normal k.symbolValue, w)
      | none => (Completion.normal Val.undefined, w)
    | none => (Completion.normal Val.undefined, w)
  | _ => (Completion.normal Val.undefined, w)

/-- Address of a plain object `{}` that is not a function. -/
def plainAddr : Nat := 2

/-- Address of a frozen object. -/
def frozenAddr : Nat := 3

/-- The demo store with two more objects: a plain `{}` and
`Object.freeze({ id: 7 })`. -/
def sampleWorld : World :=
  { objs := [(personAddr, person), (funcAddr, { props := [], extensible := true }),
             (plainAddr, { props := [], extensible := true }),
             (frozenAddr, { props := [(Key.str "id", ⟨Val.num 7, false, true, false⟩)],
                            extensible := false })],
    nextSym := 0,
    console := [] }


/-! ## Association lists and the store -/

theorem lookup_append_fresh (l : List (Key × Slot)) (k : Key) (s : Slot)
    (h : l.lookup k = none) : (l ++ [(k, s)]).lookup k = some s := by
  induction l with
  | nil => simp [List.lookup]
  | cons p l ih =>
    obtain ⟨k', s'⟩ := p
    by_cases hk : k = k'
    · subst hk; simp [List.lookup] at h
    · have hb : (k == k') = false := by simpa using hk
      simp only [List.cons_append, List.lookup, hb] at h ⊢
      exact ih h

theorem lookup_append_some (l m : List (Key × Slot)) (k : Key) (s : Slot)
    (h : l.lookup k = some s) : (l ++ m).lookup k = some s := by
  induction l with
  | nil => simp [List.lookup] at h
  | cons p l ih =>
    obtain ⟨k', s'⟩ := p
    by_cases hk : k = k'
    · subst hk; simpa [List.lookup] using h
    · have hb : (k == k') = false := by simpa using hk
      simp only [List.cons_append, List.lookup, hb] at h ⊢
      exact ih h

theorem lookup_append_ne (l : List (Key × Slot)) (k k' : Key) (s : Slot)
    (hne : k' ≠ k) : (l ++ [(k, s)]).lookup k' = l.lookup k' := by
  induction l with
  | nil =>
    have hb : (k' == k) = false := by simpa using hne
    simp [List.lookup, hb]
  | cons p l ih =>
    obtain ⟨k'', s'⟩ := p
    by_cases hk : k' = k''
    · subst hk; simp [List.lookup]
    · have hb : (k' == k'') = false := by simpa using hk
      simp only [List.cons_append, List.lookup, hb]
      exact ih

theorem lookup_filter_self (l : List (Key × Slot)) (k : Key) :
    (l.filter (fun p => !(p.1 == k))).lookup k = none := by
  induction l with
  | nil => simp [List.lookup]
  | cons p l ih =>
    obtain ⟨k', s'⟩ := p
    by_cases hk : k' = k
    · subst hk; simpa [List.filter] using ih
    · have hb : (k' == k) = false := by simpa using hk
      have hb' : (k == k') = false := by simpa using (Ne.symm hk)
      simp only [List.filter, hb, Bool.not_false, List.lookup, hb']
      exact ih

theorem lookup_filter_ne (l : List (Key × Slot)) (k k' : Key) (hne : k' ≠ k) :
    (l.filter (fun p => !(p.1 == k))).lookup k' = l.lookup k' := by
  induction l with
  | nil => simp [List.lookup]
  | cons p l ih =>
    obtain ⟨k'', s'⟩ := p
    by_cases hk : k'' = k
    · subst hk
      have hb' : (k' == k'') = false := by simpa using hne
      simp only [List.filter, beq_self_eq_true, Bool.not_true, List.lookup, hb']
      exact ih
    · have hb : (k'' == k) = false := by simpa using hk
      simp only [List.filter, hb, Bool.not_false, List.lookup]
      rw [ih]

theorem filter_append_fresh (l : List (Key × Slot)) (k : Key) (s : Slot)
    (h : l.lookup k = none) : (l ++ [(k, s)]).filter (fun p => !(p.1 == k)) = l := by
  induction l with
  | nil => simp [List.filter]
  | cons p l ih =>
    obtain ⟨k', s'⟩ := p
    by_cases hk : k = k'
    · subst hk; simp [List.lookup] at h
    · have hb : (k == k') = false := by simpa using hk
      have hb' : (k' == k) = false := by simpa using (Ne.symm hk)
      simp only [List.lookup, hb] at h
      simp only [List.cons_append, List.filter_cons, hb', Bool.not_false, if_true]
      rw [ih h]

theorem lookup_none_of_all_below (l : List (Key × Slot)) (n i : Nat) (d : String)
    (hall : l.all (fun p => p.1.belowSym n) = true) (hi : n ≤ i) :
    l.lookup (Key.sym i d) = none := by
  induction l with
  | nil => simp [List.lookup]
  | cons p l ih =>
    obtain ⟨k', s'⟩ := p
    simp only [List.all_cons, Bool.and_eq_true] at hall
    have hk : Key.sym i d ≠ k' := by
      intro hk; subst hk
      have := hall.1
      simp [Key.belowSym] at this
      omega
    have hb : (Key.sym i d == k') = false := by simpa using hk
    simp only [List.lookup, hb]
    exact ih hall.2

theorem filter_below_append (l : List (Key × Slot)) (n i : Nat) (d : String) (s : Slot)
    (hall : l.all (fun p => p.1.belowSym n) = true) (hi : n ≤ i) :
    (l ++ [(Key.sym i d, s)]).filter (fun p => p.1.belowSym n) = l := by
  induction l with
  | nil =>
    have : ¬ i < n := by omega
    simp [List.filter, Key.belowSym, this]
  | cons p l ih =>
    simp only [List.all_cons, Bool.and_eq_true] at hall
    simp only [List.cons_append, List.filter_cons, hall.1, if_true]
    rw [ih hall.2]

theorem all_below_mono (l : List (Key × Slot)) (n m : Nat) (hnm : n ≤ m)
    (hall : l.all (fun p => p.1.belowSym n) = true) :
    l.all (fun p => p.1.belowSym m) = true := by
  induction l with
  | nil => simp
  | cons p l ih =>
    simp only [List.all_cons, Bool.and_eq_true] at hall ⊢
    refine ⟨?_, ih hall.2⟩
    obtain ⟨k, s⟩ := p
    cases k with
    | str name => simp [Key.belowSym]
    | sym j d =>
      have := hall.1
      simp only [Key.belowSym, decide_eq_true_eq] at this ⊢
      omega

theorem lookup_map_same (l : List (Nat × Obj)) (a : Nat) (o o' : Obj)
    (h : l.lookup a = some o) :
    (l.map (fun p => if p.1 = a then (p.1, o') else p)).lookup a = some o' := by
  induction l with
  | nil => simp at h
  | cons p l ih =>
    obtain ⟨b, ob⟩ := p
    by_cases hb : a = b
    · subst hb; simp
    · have hbeq : (a == b) = false := by simpa using hb
      have hne : ¬ b = a := fun e => hb e.symm
      simp only [List.lookup_cons, hbeq] at h
      simp only [List.map_cons, hne, if_false, List.lookup_cons, hbeq]
      exact ih h

theorem lookup_map_ne (l : List (Nat × Obj)) (a b : Nat) (o' : Obj) (hne : b ≠ a) :
    (l.map (fun p => if p.1 = a then (p.1, o') else p)).lookup b = l.lookup b := by
  induction l with
  | nil => simp
  | cons p l ih =>
    obtain ⟨c, oc⟩ := p
    by_cases hc : c = a
    · subst hc
      have hbeq : (b == c) = false := by simpa using hne
      simp only [List.map_cons, if_true, List.lookup_cons, hbeq]
      exact ih
    · simp only [List.map_cons, hc, if_false, List.lookup_cons]
      rw [ih]

theorem getObj_setObj_same (w : World) (a : Nat) (o o' : Obj)
    (h : w.getObj a = some o) : (w.setObj a o').getObj a = some o' :=
  lookup_map_same w.objs a o o' h

theorem getObj_setObj_ne (w : World) (a b : Nat) (o' : Obj) (hne : b ≠ a) :
    (w.setObj a o').getObj b = w.getObj b :=
  lookup_map_ne w.objs a b o' hne

/-! ## The helper on an object receiver -/

theorem Obj.lookup_fresh (o : Obj) (n i : Nat) (d : String)
    (hfresh : o.symsBelow n = true) (hi : n ≤ i) : o.lookup (Key.sym i d) = none :=
  lookup_none_of_all_below o.props n i d hfresh hi

theorem Obj.set_fresh (o : Obj) (k : Key) (v : Val)
    (hk : o.lookup k = none) (hext : o.extensible = true) :
    o.set k v = { o with props := o.props ++ [(k, ⟨v, true, true, true⟩)] } := by
  simp [Obj.set, hk, hext]

theorem Obj.lookup_set_fresh (o : Obj) (k : Key) (v : Val)
    (hk : o.lookup k = none) (hext : o.extensible = true) :
    (o.set k v).lookup k = some ⟨v, true, true, true⟩ := by
  rw [Obj.set_fresh o k v hk hext]
  exact lookup_append_fresh o.props k _ hk

theorem Obj.delete_set_fresh (o : Obj) (k : Key) (v : Val)
    (hk : o.lookup k = none) (hext : o.extensible = true) :
    (o.set k v).delete k = o := by
  have h1 := Obj.lookup_set_fresh o k v hk hext
  unfold Obj.delete
  rw [h1]
  simp only [if_true]
  rw [Obj.set_fresh o k v hk hext]
  simp only
  have := filter_append_fresh o.props k ⟨v, true, true, true⟩ hk
  rw [this]

theorem invocationWorld_getObj (thisVal : Val) (r : Nat) (o : Obj) (w : World)
    (hget : w.getObj r = some o) :
    (invocationWorld thisVal r o w).getObj r
      = some (o.set (Key.sym w.nextSym "key") thisVal) := by
  unfold invocationWorld
  exact getObj_setObj_same _ r o _ hget

/-- Unfolding of `myCall` on a receiver that is an extensible object without
the fresh key: the target is stored, looked up again and, if callable, run. -/
theorem myCall_on_object (prog : Prog) (thisVal : Val) (r : Nat) (o : Obj) (A : List Val)
    (w : World) (hget : w.getObj r = some o) (hext : o.extensible = true)
    (hfresh : o.symsBelow w.nextSym = true) :
    myCall prog thisVal (Val.ref r :: A) w =
      match callee prog thisVal with
      | none => ⟨Completion.throw Exn.typeError, invocationWorld thisVal r o w,
                 Key.sym w.nextSym "key", []⟩
      | some (a, F) =>
        match F (Val.ref r) A (invocationWorld thisVal r o w) with
        | (Completion.throw e, w3) =>
          ⟨Completion.throw e, w3, Key.sym w.nextSym "key", [⟨a, Val.ref r, A⟩]⟩
        | (Completion.normal res, w3) =>
          ⟨Completion.normal res,
           (match w3.getObj r with
            | some o3 => w3.setObj r (o3.delete (Key.sym w.nextSym "key"))
            | none => w3),
           Key.sym w.nextSym "key", [⟨a, Val.ref r, A⟩]⟩ := by
  have hk : o.lookup (Key.sym w.nextSym "key") = none :=
    Obj.lookup_fresh o w.nextSym w.nextSym "key" hfresh (le_refl _)
  have hW := invocationWorld_getObj thisVal r o w hget
  have hl := Obj.lookup_set_fresh o (Key.sym w.nextSym "key") thisVal hk hext
  have hget1 : ({ w with nextSym := w.nextSym + 1 } : World).getObj r = some o := hget
  unfold myCall
  simp only [newSymbol, List.headD_cons, List.tail_cons, putValue, hget1]
  have hW2 : (({ w with nextSym := w.nextSym + 1 } : World).setObj r
      (o.set (Key.sym w.nextSym "key") thisVal)) = invocationWorld thisVal r o w := rfl
  rw [hW2]
  simp only [getValue, hW, hl]
  cases hc : callee prog thisVal with
  | none => simp
  | some p =>
    obtain ⟨a, F⟩ := p
    simp only
    cases hF : F (Val.ref r) A (invocationWorld thisVal r o w) with
    | mk c w3 =>
      cases c with
      | throw e => simp
      | normal res =>
        simp only [deleteProp]
        cases h3 : w3.getObj r <;> simp

theorem Obj.lookup_delete_ne (o : Obj) (k k' : Key) (hne : k' ≠ k) :
    (o.delete k).lookup k' = o.lookup k' := by
  unfold Obj.delete
  cases h : o.lookup k with
  | none => rfl
  | some s =>
    by_cases hc : s.configurable = true
    · simp only [hc, if_true]
      exact lookup_filter_ne o.props k k' hne
    · simp only [hc, if_false]
      simp

theorem Obj.hasOwn_delete (o : Obj) (k : Key) (hdel : o.deletable k = true) :
    (o.delete k).hasOwn k = false := by
  unfold Obj.deletable at hdel
  unfold Obj.delete Obj.hasOwn
  cases h : o.lookup k with
  | none => simp [h]
  | some s =>
    rw [h] at hdel
    simp only at hdel
    simp only [hdel, if_true]
    have := lookup_filter_self o.props k
    simp [Obj.lookup, this]

theorem Obj.delete_extensible (o : Obj) (k : Key) :
    (o.delete k).extensible = o.extensible := by
  unfold Obj.delete
  cases h : o.lookup k with
  | none => rfl
  | some s => by_cases hc : s.configurable = true <;> simp [hc]

/-! ## Symbol counter and binding key -/

theorem Obj.set_rejected (o : Obj) (k : Key) (v : Val)
    (hk : o.lookup k = none) (hext : o.extensible = false) : o.set k v = o := by
  simp [Obj.set, hk, hext]

theorem putValue_nextSym (base : Val) (k : Key) (v : Val) (w w2 : World)
    (h : putValue base k v w = Except.ok w2) : w2.nextSym = w.nextSym := by
  unfold putValue at h
  cases base with
  | ref a =>
    simp only at h
    cases hg : w.getObj a with
    | none => rw [hg] at h; cases h; rfl
    | some o => rw [hg] at h; cases h; rfl
  | undefined => cases h
  | null => cases h
  | bool b => cases h; rfl
  | num n => cases h; rfl
  | nan => cases h; rfl
  | str s => cases h; rfl
  | sym i d => cases h; rfl

theorem deleteProp_nextSym (base : Val) (k : Key) (w w2 : World)
    (h : deleteProp base k w = Except.ok w2) : w2.nextSym = w.nextSym := by
  unfold deleteProp at h
  cases base with
  | ref a =>
    simp only at h
    cases hg : w.getObj a with
    | none => rw [hg] at h; cases h; rfl
    | some o => rw [hg] at h; cases h; rfl
  | undefined => cases h
  | null => cases h
  | bool b => cases h; rfl
  | num n => cases h; rfl
  | nan => cases h; rfl
  | str s => cases h; rfl
  | sym i d => cases h; rfl

theorem callee_some (prog : Prog) (fv : Val) (a : Nat) (F : Fn)
    (h : callee prog fv = some (a, F)) : prog a = some F := by
  cases fv with
  | ref b =>
    simp only [callee] at h
    cases hp : prog b with
    | none => rw [hp] at h; cases h
    | some G =>
      rw [hp] at h
      simp only [Option.some.injEq, Prod.mk.injEq] at h
      obtain ⟨h1, h2⟩ := h
      subst h1; subst h2; exact hp
  | undefined => cases h
  | null => cases h
  | bool b => cases h
  | num n => cases h
  | nan => cases h
  | str s => cases h
  | sym i d => cases h

/-- The key generated by `myCall` is the symbol drawn from the counter. -/
theorem myCall_key (prog : Prog) (thisVal : Val) (argv : List Val) (w : World) :
    (myCall prog thisVal argv w).key = Key.sym w.nextSym "key" := by
  unfold myCall
  simp only [newSymbol]
  split
  · rfl
  · split
    · rfl
    · split
      · rfl
      · split
        · rfl
        · split <;> rfl

/-- Every run of `myCall` uses up at least one symbol, provided the functions of
the program never lower the symbol counter. -/
theorem myCall_nextSym (prog : Prog) (thisVal : Val) (argv : List Val) (w : World)
    (hmono : ∀ g G, prog g = some G → ∀ t a w', w'.nextSym ≤ (G t a w').2.nextSym) :
    w.nextSym < (myCall prog thisVal argv w).world.nextSym := by
  unfold myCall
  simp only [newSymbol]
  split
  · simp
  · rename_i w2 hput
    have h2 := putValue_nextSym _ _ _ _ _ hput
    simp only at h2
    split
    · simp only; omega
    · split
      · simp only; omega
      · rename_i a F hcal
        have hm := hmono a F (callee_some prog _ a F hcal) (argv.headD Val.undefined) argv.tail w2
        split
        · rename_i e w3 hrun
          rw [hrun] at hm
          simp only at hm ⊢
          omega
        · rename_i res w3 hrun
          rw [hrun] at hm
          simp only at hm
          split
          · simp only; omega
          · rename_i w4 hdel
            have h4 := deleteProp_nextSym _ _ _ _ hdel
            simp only
            omega

/-! ## The store invariant -/

theorem mem_of_lookup (l : List (Nat × Obj)) (a : Nat) (o : Obj)
    (h : l.lookup a = some o) : (a, o) ∈ l := by
  induction l with
  | nil => simp at h
  | cons p l ih =>
    obtain ⟨b, ob⟩ := p
    by_cases hb : a = b
    · subst hb
      simp only [List.lookup_cons, beq_self_eq_true, Option.some.injEq] at h
      subst h
      exact List.mem_cons_self _ _
    · have hbeq : (a == b) = false := by simpa using hb
      simp only [List.lookup_cons, hbeq] at h
      exact List.mem_cons_of_mem _ (ih h)

theorem World.symsBelow_of_symsFresh (w : World) (a : Nat) (o : Obj)
    (hw : w.symsFresh = true) (hget : w.getObj a = some o) :
    o.symsBelow w.nextSym = true := by
  unfold World.symsFresh at hw
  rw [List.all_eq_true] at hw
  exact hw (a, o) (mem_of_lookup w.objs a o hget)

theorem Obj.symsBelow_set (o : Obj) (n i : Nat) (d : String) (v : Val)
    (h : o.symsBelow n = true) (hi : i < n) : (o.set (Key.sym i d) v).symsBelow n = true := by
  unfold Obj.set
  cases o.lookup (Key.sym i d) with
  | some s =>
    by_cases hwr : s.writable = true
    · simp only [hwr, if_true]
      unfold Obj.symsBelow at h ⊢
      rw [List.all_eq_true] at h ⊢
      intro q hq
      simp only [List.mem_map] at hq
      obtain ⟨p, hp, hpq⟩ := hq
      have := h p hp
      split at hpq <;> (subst hpq; simpa using this)
    · simp only [hwr]
      exact h
  | none =>
    by_cases hext : o.extensible = true
    · simp only [hext, if_true]
      unfold Obj.symsBelow at h ⊢
      simp only [List.all_append, h, List.all_cons, List.all_nil, Bool.and_true, Bool.true_and]
      simpa [Key.belowSym] using hi
    · simp only [hext]
      exact h

theorem Obj.symsBelow_delete (o : Obj) (n : Nat) (k : Key)
    (h : o.symsBelow n = true) : (o.delete k).symsBelow n = true := by
  unfold Obj.delete
  cases o.lookup k with
  | none => exact h
  | some s =>
    by_cases hc : s.configurable = true
    · simp only [hc, if_true]
      unfold Obj.symsBelow at h ⊢
      rw [List.all_eq_true] at h ⊢
      intro p hp
      exact h p (List.mem_filter.mp hp).1
    · simp only [hc]
      exact h

theorem World.symsFresh_setObj (w : World) (a : Nat) (o : Obj)
    (hw : w.symsFresh = true) (ho : o.symsBelow w.nextSym = true) :
    (w.setObj a o).symsFresh = true := by
  unfold World.symsFresh World.setObj at *
  rw [List.all_eq_true] at hw ⊢
  intro q hq
  simp only [List.mem_map] at hq
  obtain ⟨p, hp, hpq⟩ := hq
  split at hpq
  · subst hpq; exact ho
  · subst hpq; exact hw p hp

theorem World.symsFresh_bump (w : World) (hw : w.symsFresh = true) :
    ({ w with nextSym := w.nextSym + 1 } : World).symsFresh = true := by
  unfold World.symsFresh at *
  rw [List.all_eq_true] at hw ⊢
  intro p hp
  exact all_below_mono p.2.props w.nextSym (w.nextSym + 1) (Nat.le_succ _) (hw p hp)

/-- The store invariant survives `myCall` whenever the functions of the program
maintain it. -/
theorem myCall_symsFresh (prog : Prog) (thisVal : Val) (argv : List Val) (w : World)
    (hprog : ∀ g G, prog g = some G → ∀ t a w', w'.symsFresh = true →
      (G t a w').2.symsFresh = true)
    (hw : w.symsFresh = true) :
    (myCall prog thisVal argv w).world.symsFresh = true := by
  have h1 := World.symsFresh_bump w hw
  have hput : ∀ w2, putValue (argv.headD Val.undefined) (Key.sym w.nextSym "key") thisVal
      { w with nextSym := w.nextSym + 1 } = Except.ok w2 → w2.symsFresh = true := by
    intro w2 h
    unfold putValue at h
    cases hv : argv.headD Val.undefined with
    | ref a =>
      rw [hv] at h
      simp only at h
      cases hg : ({ w with nextSym := w.nextSym + 1 } : World).getObj a with
      | none => rw [hg] at h; cases h; exact h1
      | some o =>
        rw [hg] at h
        cases h
        apply World.symsFresh_setObj _ a _ h1
        exact Obj.symsBelow_set o _ _ _ _
          (World.symsBelow_of_symsFresh _ a o h1 hg) (Nat.lt_succ_self _)
    | undefined => rw [hv] at h; cases h
    | null => rw [hv] at h; cases h
    | bool b => rw [hv] at h; cases h; exact h1
    | num n => rw [hv] at h; cases h; exact h1
    | nan => rw [hv] at h; cases h; exact h1
    | str s => rw [hv] at h; cases h; exact h1
    | sym i d => rw [hv] at h; cases h; exact h1
  have hdelete : ∀ w3 w4, w3.symsFresh = true →
      deleteProp (argv.headD Val.undefined) (Key.sym w.nextSym "key") w3 = Except.ok w4 →
      w4.symsFresh = true := by
    intro w3 w4 h3 h
    unfold deleteProp at h
    cases hv : argv.headD Val.undefined with
    | ref a =>
      rw [hv] at h
      simp only at h
      cases hg : w3.getObj a with
      | none => rw [hg] at h; cases h; exact h3
      | some o =>
        rw [hg] at h
        cases h
        apply World.symsFresh_setObj _ a _ h3
        exact Obj.symsBelow_delete o _ _ (World.symsBelow_of_symsFresh _ a o h3 hg)
    | undefined => rw [hv] at h; cases h
    | null => rw [hv] at h; cases h
    | bool b => rw [hv] at h; cases h; exact h3
    | num n => rw [hv] at h; cases h; exact h3
    | nan => rw [hv] at h; cases h; exact h3
    | str s => rw [hv] at h; cases h; exact h3
    | sym i d => rw [hv] at h; cases h; exact h3
  unfold myCall
  simp only [newSymbol]
  split
  · exact h1
  · rename_i w2 hp
    have h2 := hput w2 hp
    split
    · exact h2
    · split
      · exact h2
      · rename_i a F hcal
        have hF := hprog a F (callee_some prog _ a F hcal)
          (argv.headD Val.undefined) argv.tail w2 h2
        split
        · rename_i e w3 hrun
          rw [hrun] at hF
          exact hF
        · rename_i res w3 hrun
          rw [hrun] at hF
          split
          · exact hF
          · rename_i w4 hdel
            exact hdelete w3 w4 hF hdel

/-! ## Runs that leave the receiver alone -/

theorem func_nextSym (t : Val) (a : List Val) (w : World) :
    (func t a w).2.nextSym = w.nextSym := by
  unfold func
  simp only [consoleLog]
  split <;> rfl

theorem demoProg_mono :
    ∀ g G, demoProg g = some G → ∀ t a w', w'.nextSym ≤ (G t a w').2.nextSym := by
  intro g G h t a w
  unfold demoProg at h
  split at h
  · cases h
    exact le_of_eq (func_nextSym t a w).symm
  · cases h

theorem Obj.viewBelow_of_symsBelow (o : Obj) (n : Nat) (h : o.symsBelow n = true) :
    o.viewBelow n = o := by
  unfold Obj.viewBelow
  have : o.props.filter (fun p => p.1.belowSym n) = o.props := by
    rw [List.filter_eq_self]
    intro p hp
    unfold Obj.symsBelow at h
    rw [List.all_eq_true] at h
    exact h p hp
  rw [this]

theorem Obj.viewBelow_set_fresh (o : Obj) (n i : Nat) (d : String) (v : Val)
    (h : o.symsBelow n = true) (hi : n ≤ i) (hext : o.extensible = true) :
    (o.set (Key.sym i d) v).viewBelow n = o := by
  rw [Obj.set_fresh o _ v (Obj.lookup_fresh o n i d h hi) hext]
  unfold Obj.viewBelow
  simp only
  rw [filter_below_append o.props n i d _ h hi]

/-- One run of `myCall` with a target that returns normally and does not mutate the
receiver: the value is passed through and the receiver is as before. -/
theorem myCall_run_unmutated (prog : Prog) (f : Nat) (F : Fn) (r : Nat) (o : Obj)
    (A : List Val) (w : World) (v : Val) (hF : prog f = some F)
    (hget : w.getObj r = some o) (hext : o.extensible = true)
    (hfresh : o.symsBelow w.nextSym = true)
    (hmut : ∀ w', (F (Val.ref r) A w').2.getObj r = w'.getObj r)
    (hret : (F (Val.ref r) A (invocationWorld (Val.ref f) r o w)).1 = Completion.normal v) :
    (myCall prog (Val.ref f) (Val.ref r :: A) w).result = Completion.normal v ∧
    (myCall prog (Val.ref f) (Val.ref r :: A) w).world.getObj r = some o ∧
    (myCall prog (Val.ref f) (Val.ref r :: A) w).world.nextSym
      = (F (Val.ref r) A (invocationWorld (Val.ref f) r o w)).2.nextSym := by
  have hm := hmut (invocationWorld (Val.ref f) r o w)
  rw [invocationWorld_getObj (Val.ref f) r o w hget] at hm
  rw [myCall_on_object prog (Val.ref f) r o A w hget hext hfresh]
  simp only [callee, hF]
  cases hR : F (Val.ref r) A (invocationWorld (Val.ref f) r o w) with
  | mk c w3 =>
    rw [hR] at hret hm
    simp only at hret hm
    subst hret
    simp only [hm]
    refine ⟨trivial, ?_, rfl⟩
    rw [Obj.delete_set_fresh o _ _
      (Obj.lookup_fresh o w.nextSym w.nextSym "key" hfresh (le_refl _)) hext]
    exact getObj_setObj_same w3 r _ o hm

/-! ## Claims -/

/-- C1: for a receiver object that can take the temporary property and a target
that returns its own `this`, `F.myCall(R)` returns the reference `R` itself, and
the one invocation made has `R` as its `this` value. -/
theorem myCall_binds_this_to_receiver (prog : Prog) (f : Nat) (F : Fn) (r : Nat) (o : Obj)
    (w : World) (hF : prog f = some F) (hget : w.getObj r = some o)
    (hext : o.extensible = true) (hfresh : o.symsBelow w.nextSym = true)
    (hthis : ∀ t a w', (F t a w').1 = Completion.normal t) :
    (myCall prog (Val.ref f) [Val.ref r] w).result = Completion.normal (Val.ref r) ∧
    (myCall prog (Val.ref f) [Val.ref r] w).calls = [⟨f, Val.ref r, []⟩] := by
  rw [myCall_on_object prog (Val.ref f) r o [] w hget hext hfresh]
  simp only [callee, hF]
  have h := hthis (Val.ref r) [] (invocationWorld (Val.ref f) r o w)
  cases hR : F (Val.ref r) [] (invocationWorld (Val.ref f) r o w) with
  | mk c w3 =>
    rw [hR] at h
    simp only at h
    subst h
    exact ⟨rfl, rfl⟩

/-- Instance of C1: `(function () { return this }).myCall(person)` returns `person`. -/
theorem myCall_binds_this_to_receiver_witness :
    (myCall (only retThis) (Val.ref funcAddr) [Val.ref personAddr] demoWorld).result
      = Completion.normal (Val.ref personAddr) ∧
    (myCall (only retThis) (Val.ref funcAddr) [Val.ref personAddr] demoWorld).calls
      = [⟨funcAddr, Val.ref personAddr, []⟩] :=
  myCall_binds_this_to_receiver (only retThis) funcAddr retThis personAddr person demoWorld
    rfl rfl rfl rfl (fun _ _ _ => rfl)

/-- C2: on a receiver object that can take the temporary property, `F.myCall(R, ...A)`
invokes `F` exactly once, with `this = R` and exactly the list `A` as arguments, and
completes as that invocation of `F` completes (so the helper adds no failure of its
own, also for an empty `A`). -/
theorem myCall_passes_arguments (prog : Prog) (f : Nat) (F : Fn) (r : Nat) (o : Obj)
    (A : List Val) (w : World) (hF : prog f = some F) (hget : w.getObj r = some o)
    (hext : o.extensible = true) (hfresh : o.symsBelow w.nextSym = true) :
    (myCall prog (Val.ref f) (Val.ref r :: A) w).calls = [⟨f, Val.ref r, A⟩] ∧
    (myCall prog (Val.ref f) (Val.ref r :: A) w).result
      = (F (Val.ref r) A (invocationWorld (Val.ref f) r o w)).1 := by
  rw [myCall_on_object prog (Val.ref f) r o A w hget hext hfresh]
  simp only [callee, hF]
  cases hR : F (Val.ref r) A (invocationWorld (Val.ref f) r o w) with
  | mk c w3 =>
    cases c with
    | normal v => exact ⟨rfl, rfl⟩
    | throw e => exact ⟨rfl, rfl⟩

/-- Instance of C2 with no arguments: `func.myCall(person)` invokes `func` once with an
empty argument list, both parameters are `undefined`, and the sum is NaN. -/
theorem myCall_passes_arguments_witness :
    ((myCall demoProg (Val.ref funcAddr) [Val.ref personAddr] demoWorld).calls
        = [⟨funcAddr, Val.ref personAddr, []⟩] ∧
      (myCall demoProg (Val.ref funcAddr) [Val.ref personAddr] demoWorld).result
        = (func (Val.ref personAddr) []
            (invocationWorld (Val.ref funcAddr) personAddr person demoWorld)).1) ∧
    (myCall demoProg (Val.ref funcAddr) [Val.ref personAddr] demoWorld).result
      = Completion.normal Val.nan ∧
    (myCall demoProg (Val.ref funcAddr) [Val.ref personAddr] demoWorld).world.console
      = [[Val.ref personAddr], [Val.undefined, Val.undefined]] :=
  ⟨myCall_passes_arguments demoProg funcAddr func personAddr person [] demoWorld
    rfl rfl rfl rfl, by decide, by decide⟩

/-- C3: when the invocation of `F` with `this = R` and arguments `A` returns the
value `v`, `F.myCall(R, ...A)` returns that same `v`, and the execution context of
the invocation was `R`. -/
theorem myCall_returns_result (prog : Prog) (f : Nat) (F : Fn) (r : Nat) (o : Obj)
    (A : List Val) (w : World) (v : Val) (hF : prog f = some F)
    (hget : w.getObj r = some o) (hext : o.extensible = true)
    (hfresh : o.symsBelow w.nextSym = true)
    (hret : (F (Val.ref r) A (invocationWorld (Val.ref f) r o w)).1 = Completion.normal v) :
    (myCall prog (Val.ref f) (Val.ref r :: A) w).result = Completion.normal v ∧
    (myCall prog (Val.ref f) (Val.ref r :: A) w).calls.map CallRecord.thisValue
      = [Val.ref r] := by
  rw [myCall_on_object prog (Val.ref f) r o A w hget hext hfresh]
  simp only [callee, hF]
  cases hR : F (Val.ref r) A (invocationWorld (Val.ref f) r o w) with
  | mk c w3 =>
    rw [hR] at hret
    simp only at hret
    subst hret
    exact ⟨rfl, rfl⟩

/-- Instance of C3, the demo: `func.myCall(person,1,11)` returns `12`, `this` inside
`func` is `person`, and the console shows the three lines of the script. -/
theorem myCall_returns_result_witness :
    (demoRun.result = Completion.normal (Val.num 12) ∧
      demoRun.calls.map CallRecord.thisValue = [Val.ref personAddr]) ∧
    demoConsole = [[Val.ref personAddr], [Val.num 1, Val.num 11],
                   [Val.str "返回值：", Val.num 12]] :=
  ⟨myCall_returns_result demoProg funcAddr func personAddr person [Val.num 1, Val.num 11]
    demoWorld (Val.num 12) rfl rfl rfl rfl rfl, by decide⟩

/-- C6: when the invocation of `F` with `this = R` and arguments `A` throws `e`,
`F.myCall(R, ...A)` throws that same `e` and returns no value. -/
theorem myCall_propagates_throw (prog : Prog) (f : Nat) (F : Fn) (r : Nat) (o : Obj)
    (A : List Val) (w : World) (e : Exn) (hF : prog f = some F)
    (hget : w.getObj r = some o) (hext : o.extensible = true)
    (hfresh : o.symsBelow w.nextSym = true)
    (hthrow : (F (Val.ref r) A (invocationWorld (Val.ref f) r o w)).1 = Completion.throw e) :
    (myCall prog (Val.ref f) (Val.ref r :: A) w).result = Completion.throw e := by
  rw [myCall_on_object prog (Val.ref f) r o A w hget hext hfresh]
  simp only [callee, hF]
  cases hR : F (Val.ref r) A (invocationWorld (Val.ref f) r o w) with
  | mk c w3 =>
    rw [hR] at hthrow
    simp only at hthrow
    subst hthrow
    rfl

/-- Instance of C6: a target that throws the string `boom` makes `myCall` throw it. -/
theorem myCall_propagates_throw_witness :
    (myCall (only thrower) (Val.ref funcAddr) [Val.ref personAddr, Val.num 1] demoWorld).result
      = Completion.throw (Exn.thrown (Val.str "boom")) :=
  myCall_propagates_throw (only thrower) funcAddr thrower personAddr person [Val.num 1]
    demoWorld (Exn.thrown (Val.str "boom")) rfl rfl rfl rfl rfl

/-- C4, the claim as stated fails: `function () { Object.freeze(this) }` returns
normally, yet after `myCall` the binding key, which `person` did not have before, is
still an own property of `person`. -/
theorem myCall_frozen_receiver_keeps_key :
    (myCall (only freezeThis) (Val.ref funcAddr) [Val.ref personAddr] demoWorld).result
      = Completion.normal Val.undefined ∧
    (demoWorld.getObj personAddr).map
      (fun o => o.hasOwn
        (myCall (only freezeThis) (Val.ref funcAddr) [Val.ref personAddr] demoWorld).key)
      = some false ∧
    ((myCall (only freezeThis) (Val.ref funcAddr) [Val.ref personAddr] demoWorld).world.getObj
        personAddr).map
      (fun o => o.hasOwn
        (myCall (only freezeThis) (Val.ref funcAddr) [Val.ref personAddr] demoWorld).key)
      = some true := by
  decide

/-- C4, amended: when `F` returns normally, leaving the receiver as `o3` with the
binding key still deletable, the receiver after `myCall` lacks the binding key, has
every other property and the extensible flag as `F` left them, every other object,
the symbol counter and the console are as `F` left them, and a receiver that `F`
left as it found it is exactly the receiver from before the call. -/
theorem myCall_restores_receiver (prog : Prog) (f : Nat) (F : Fn) (r : Nat) (o : Obj)
    (A : List Val) (w : World) (v : Val) (w3 : World) (o3 : Obj)
    (hF : prog f = some F) (hget : w.getObj r = some o) (hext : o.extensible = true)
    (hfresh : o.symsBelow w.nextSym = true)
    (hret : F (Val.ref r) A (invocationWorld (Val.ref f) r o w) = (Completion.normal v, w3))
    (hget3 : w3.getObj r = some o3)
    (hdel : o3.deletable (Key.sym w.nextSym "key") = true) :
    (myCall prog (Val.ref f) (Val.ref r :: A) w).key = Key.sym w.nextSym "key" ∧
    ∃ o4, (myCall prog (Val.ref f) (Val.ref r :: A) w).world.getObj r = some o4 ∧
      o4.hasOwn (Key.sym w.nextSym "key") = false ∧
      (∀ k, k ≠ Key.sym w.nextSym "key" → o4.lookup k = o3.lookup k) ∧
      o4.extensible = o3.extensible ∧
      (∀ a, a ≠ r → (myCall prog (Val.ref f) (Val.ref r :: A) w).world.getObj a = w3.getObj a) ∧
      (myCall prog (Val.ref f) (Val.ref r :: A) w).world.nextSym = w3.nextSym ∧
      (myCall prog (Val.ref f) (Val.ref r :: A) w).world.console = w3.console ∧
      (w3.getObj r = (invocationWorld (Val.ref f) r o w).getObj r → o4 = o) := by
  rw [myCall_on_object prog (Val.ref f) r o A w hget hext hfresh]
  simp only [callee, hF, hret, hget3]
  refine ⟨trivial, o3.delete (Key.sym w.nextSym "key"), ?_, ?_, ?_, ?_, ?_, rfl, rfl, ?_⟩
  · exact getObj_setObj_same w3 r o3 _ hget3
  · exact Obj.hasOwn_delete o3 _ hdel
  · intro k hk
    exact Obj.lookup_delete_ne o3 _ k hk
  · exact Obj.delete_extensible o3 _
  · intro a ha
    exact getObj_setObj_ne w3 r a _ ha
  · intro hsame
    rw [invocationWorld_getObj (Val.ref f) r o w hget] at hsame
    have h3 : o3 = o.set (Key.sym w.nextSym "key") (Val.ref f) := Option.some.inj hsame
    rw [h3]
    exact Obj.delete_set_fresh o _ _
      (Obj.lookup_fresh o w.nextSym w.nextSym "key" hfresh (le_refl _)) hext

/-- Instance of the amended C4: after `(function (n) { this.age = n }).myCall(person, 19)`
the object `person` is `{ name: "haha", age: 19 }`. -/
theorem myCall_restores_receiver_witness :
    ((myCall (only setAge) (Val.ref funcAddr) [Val.ref personAddr, Val.num 19] demoWorld).key
        = Key.sym demoWorld.nextSym "key" ∧
      ∃ o4, (myCall (only setAge) (Val.ref funcAddr) [Val.ref personAddr, Val.num 19]
              demoWorld).world.getObj personAddr = some o4 ∧
        o4.hasOwn (Key.sym demoWorld.nextSym "key") = false ∧
        (∀ k, k ≠ Key.sym demoWorld.nextSym "key" →
          o4.lookup k =
            Obj.lookup
              { props := [(Key.str "name", ⟨Val.str "haha", true, true, true⟩),
                          (Key.str "age", ⟨Val.num 19, true, true, true⟩),
                          (Key.sym 0 "key", ⟨Val.ref funcAddr, true, true, true⟩)],
                extensible := true } k) ∧
        o4.extensible = true ∧
        (∀ a, a ≠ personAddr →
          (myCall (only setAge) (Val.ref funcAddr) [Val.ref personAddr, Val.num 19]
              demoWorld).world.getObj a
            = (setAge (Val.ref personAddr) [Val.num 19]
                (invocationWorld (Val.ref funcAddr) personAddr person demoWorld)).2.getObj a) ∧
        (myCall (only setAge) (Val.ref funcAddr) [Val.ref personAddr, Val.num 19]
            demoWorld).world.nextSym
          = (setAge (Val.ref personAddr) [Val.num 19]
              (invocationWorld (Val.ref funcAddr) personAddr person demoWorld)).2.nextSym ∧
        (myCall (only setAge) (Val.ref funcAddr) [Val.ref personAddr, Val.num 19]
            demoWorld).world.console
          = (setAge (Val.ref personAddr) [Val.num 19]
              (invocationWorld (Val.ref funcAddr) personAddr person demoWorld)).2.console ∧
        ((setAge (Val.ref personAddr) [Val.num 19]
              (invocationWorld (Val.ref funcAddr) personAddr person demoWorld)).2.getObj personAddr
            = (invocationWorld (Val.ref funcAddr) personAddr person demoWorld).getObj personAddr →
          o4 = person)) ∧
    (myCall (only setAge) (Val.ref funcAddr) [Val.ref personAddr, Val.num 19]
        demoWorld).world.getObj personAddr
      = some { props := [(Key.str "name", ⟨Val.str "haha", true, true, true⟩),
                         (Key.str "age", ⟨Val.num 19, true, true, true⟩)],
               extensible := true } :=
  ⟨myCall_restores_receiver (only setAge) funcAddr setAge personAddr person [Val.num 19]
    demoWorld Val.undefined
    (setAge (Val.ref personAddr) [Val.num 19]
      (invocationWorld (Val.ref funcAddr) personAddr person demoWorld)).2
    { props := [(Key.str "name", ⟨Val.str "haha", true, true, true⟩),
                (Key.str "age", ⟨Val.num 19, true, true, true⟩),
                (Key.sym 0 "key", ⟨Val.ref funcAddr, true, true, true⟩)],
      extensible := true }
    rfl rfl rfl rfl rfl (by decide) (by decide), by decide⟩

/-- C5, the code at a throwing target: `function () { throw 'boom' }` makes `myCall`
throw `'boom'`, and afterwards `person` has the binding key among its own keys, which
it did not have before the call. -/
theorem myCall_throw_leaves_key :
    (myCall (only thrower) (Val.ref funcAddr) [Val.ref personAddr] demoWorld).result
      = Completion.throw (Exn.thrown (Val.str "boom")) ∧
    (demoWorld.getObj personAddr).map Obj.keys = some [Key.str "name", Key.str "age"] ∧
    ((myCall (only thrower) (Val.ref funcAddr) [Val.ref personAddr] demoWorld).world.getObj
        personAddr).map Obj.keys
      = some [Key.str "name", Key.str "age", Key.sym 0 "key"] := by
  decide

/-- C8, the code at a target that is not a function: `myCall` applied to the plain
object at `plainAddr` with receiver `person` throws a `TypeError` without invoking
anything, and afterwards `person` holds the binding key, bound to the target. -/
theorem myCall_noncallable_target_leaves_key :
    (myCall demoProg (Val.ref plainAddr) [Val.ref personAddr, Val.num 1] sampleWorld).result
      = Completion.throw Exn.typeError ∧
    (myCall demoProg (Val.ref plainAddr) [Val.ref personAddr, Val.num 1] sampleWorld).calls
      = [] ∧
    (sampleWorld.getObj personAddr).map Obj.keys = some [Key.str "name", Key.str "age"] ∧
    ((myCall demoProg (Val.ref plainAddr) [Val.ref personAddr, Val.num 1]
        sampleWorld).world.getObj personAddr).map Obj.keys
      = some [Key.str "name", Key.str "age", Key.sym 0 "key"] ∧
    ((myCall demoProg (Val.ref plainAddr) [Val.ref personAddr, Val.num 1]
        sampleWorld).world.getObj personAddr).bind
        (fun o => o.lookup (Key.sym 0 "key"))
      = some ⟨Val.ref plainAddr, true, true, true⟩ := by
  decide

/-- C9: when the receiver cannot take a new property (it is `undefined`, also by
absence, `null`, another primitive, or an object that is not extensible), `myCall`
throws a `TypeError`, invokes nothing, and leaves every object and the console as
they were. -/
theorem myCall_rejecting_receiver (prog : Prog) (thisVal : Val) (argv : List Val) (w : World)
    (hrej : rejectsProps w (argv.headD Val.undefined) = true)
    (hfresh : ∀ a o, argv.headD Val.undefined = Val.ref a → w.getObj a = some o →
      o.symsBelow w.nextSym = true) :
    (myCall prog thisVal argv w).result = Completion.throw Exn.typeError ∧
    (myCall prog thisVal argv w).calls = [] ∧
    (∀ b, (myCall prog thisVal argv w).world.getObj b = w.getObj b) ∧
    (myCall prog thisVal argv w).world.console = w.console := by
  unfold myCall
  simp only [newSymbol]
  cases hv : argv.headD Val.undefined with
  | ref a =>
    rw [hv] at hrej
    simp only [rejectsProps] at hrej
    cases hg : w.getObj a with
    | none => rw [hg] at hrej; cases hrej
    | some o =>
      rw [hg] at hrej
      have hext : o.extensible = false := by simpa using hrej
      have hk : o.lookup (Key.sym w.nextSym "key") = none :=
        Obj.lookup_fresh o w.nextSym w.nextSym "key" (hfresh a o hv hg) (le_refl _)
      have hg1 : ({ w with nextSym := w.nextSym + 1 } : World).getObj a = some o := hg
      have hg2 : (({ w with nextSym := w.nextSym + 1 } : World).setObj a o).getObj a = some o :=
        getObj_setObj_same _ a o o hg1
      simp only [putValue, hg1, Obj.set_rejected o _ thisVal hk hext, getValue, hg2, hk, callee]
      refine ⟨trivial, trivial, ?_, rfl⟩
      intro b
      by_cases hb : b = a
      · subst hb; rw [hg2, hg]
      · rw [getObj_setObj_ne _ a b o hb]; rfl
  | undefined => simp [putValue, World.getObj]
  | null => simp [putValue, World.getObj]
  | bool b => simp [putValue, getValue, callee, World.getObj]
  | num n => simp [putValue, getValue, callee, World.getObj]
  | nan => simp [putValue, getValue, callee, World.getObj]
  | str s => simp [putValue, getValue, callee, World.getObj]
  | sym i d => simp [putValue, getValue, callee, World.getObj]

/-- Instances of C9: the receivers `null`, a frozen object and the string `abc`. -/
theorem myCall_rejecting_receiver_witness :
    ((myCall demoProg (Val.ref funcAddr) [Val.null, Val.num 1, Val.num 11] sampleWorld).result
        = Completion.throw Exn.typeError ∧
      (myCall demoProg (Val.ref funcAddr) [Val.null, Val.num 1, Val.num 11] sampleWorld).calls
        = [] ∧
      (∀ b, (myCall demoProg (Val.ref funcAddr) [Val.null, Val.num 1, Val.num 11]
          sampleWorld).world.getObj b = sampleWorld.getObj b) ∧
      (myCall demoProg (Val.ref funcAddr) [Val.null, Val.num 1, Val.num 11]
          sampleWorld).world.console = sampleWorld.console) ∧
    ((myCall demoProg (Val.ref funcAddr) [Val.ref frozenAddr, Val.num 1, Val.num 11]
          sampleWorld).result = Completion.throw Exn.typeError ∧
      (myCall demoProg (Val.ref funcAddr) [Val.ref frozenAddr, Val.num 1, Val.num 11]
          sampleWorld).calls = [] ∧
      (∀ b, (myCall demoProg (Val.ref funcAddr) [Val.ref frozenAddr, Val.num 1, Val.num 11]
          sampleWorld).world.getObj b = sampleWorld.getObj b) ∧
      (myCall demoProg (Val.ref funcAddr) [Val.ref frozenAddr, Val.num 1, Val.num 11]
          sampleWorld).world.console = sampleWorld.console) ∧
    ((myCall demoProg (Val.ref funcAddr) [Val.str "abc", Val.num 1, Val.num 11]
          sampleWorld).result = Completion.throw Exn.typeError ∧
      (myCall demoProg (Val.ref funcAddr) [Val.str "abc", Val.num 1, Val.num 11]
          sampleWorld).calls = [] ∧
      (∀ b, (myCall demoProg (Val.ref funcAddr) [Val.str "abc", Val.num 1, Val.num 11]
          sampleWorld).world.getObj b = sampleWorld.getObj b) ∧
      (myCall demoProg (Val.ref funcAddr) [Val.str "abc", Val.num 1, Val.num 11]
          sampleWorld).world.console = sampleWorld.console) :=
  ⟨myCall_rejecting_receiver demoProg (Val.ref funcAddr) [Val.null, Val.num 1, Val.num 11]
      sampleWorld rfl (fun _ _ h => by cases h),
   myCall_rejecting_receiver demoProg (Val.ref funcAddr)
      [Val.ref frozenAddr, Val.num 1, Val.num 11] sampleWorld rfl
      (fun a o h hg => by
        have ha : frozenAddr = a := by simpa using h
        subst ha
        have ho : o = { props := [(Key.str "id", ⟨Val.num 7, false, true, false⟩)],
                        extensible := false } := by
          have : sampleWorld.getObj frozenAddr
              = some { props := [(Key.str "id", ⟨Val.num 7, false, true, false⟩)],
                       extensible := false } := by decide
          rw [this] at hg
          exact (Option.some.inj hg).symm
        subst ho
        decide),
   myCall_rejecting_receiver demoProg (Val.ref funcAddr) [Val.str "abc", Val.num 1, Val.num 11]
      sampleWorld rfl (fun _ _ h => by cases h)⟩

/-- C7: the binding key is a symbol drawn fresh from the counter.  It is none of the
keys the receiver already has (strings or earlier symbols), storing the target under
it leaves every property the receiver had with its value and attributes, deleting it
removes none of them, and any later invocation of `myCall` generates a different
key. -/
theorem myCall_key_is_fresh (prog : Prog) (thisVal : Val) (r : Nat) (o : Obj)
    (A : List Val) (w : World) (hget : w.getObj r = some o)
    (hfresh : o.symsBelow w.nextSym = true)
    (hmono : ∀ g G, prog g = some G → ∀ t a w', w'.nextSym ≤ (G t a w').2.nextSym) :
    (myCall prog thisVal (Val.ref r :: A) w).key.isSym = true ∧
    (myCall prog thisVal (Val.ref r :: A) w).key ∉ o.keys ∧
    (∀ k s, o.lookup k = some s →
      ((invocationWorld thisVal r o w).getObj r).bind (fun o1 => o1.lookup k) = some s) ∧
    (∀ (o3 : Obj) (k : Key), k ∈ o.keys →
      (o3.delete (myCall prog thisVal (Val.ref r :: A) w).key).lookup k = o3.lookup k) ∧
    (∀ thisVal2 argv2,
      (myCall prog thisVal2 argv2 (myCall prog thisVal (Val.ref r :: A) w).world).key
        ≠ (myCall prog thisVal (Val.ref r :: A) w).key) := by
  have hk : o.lookup (Key.sym w.nextSym "key") = none :=
    Obj.lookup_fresh o w.nextSym w.nextSym "key" hfresh (le_refl _)
  have hnot : Key.sym w.nextSym "key" ∉ o.keys := by
    intro hmem
    unfold Obj.keys at hmem
    unfold Obj.lookup at hk
    rw [List.lookup_eq_none_iff] at hk
    obtain ⟨p, hp, hpk⟩ := List.mem_map.mp hmem
    have := hk p hp
    simp [hpk] at this
  rw [myCall_key]
  refine ⟨rfl, hnot, ?_, ?_, ?_⟩
  · intro k s hks
    rw [invocationWorld_getObj thisVal r o w hget]
    show (o.set (Key.sym w.nextSym "key") thisVal).lookup k = some s
    unfold Obj.set
    rw [hk]
    by_cases hext : o.extensible = true
    · simp only [hext, if_true]
      exact lookup_append_some o.props _ k s hks
    · simp only [hext]
      exact hks
  · intro o3 k hmem
    apply Obj.lookup_delete_ne
    intro hkk
    subst hkk
    exact hnot hmem
  · intro thisVal2 argv2
    rw [myCall_key]
    have hlt := myCall_nextSym prog thisVal (Val.ref r :: A) w hmono
    intro heq
    simp only [Key.sym.injEq, and_true] at heq
    omega

/-- Instance of C7 at the demo call `func.myCall(person,1,11)`. -/
theorem myCall_key_is_fresh_witness :
    (myCall demoProg (Val.ref funcAddr) (Val.ref personAddr :: [Val.num 1, Val.num 11])
        demoWorld).key.isSym = true ∧
    (myCall demoProg (Val.ref funcAddr) (Val.ref personAddr :: [Val.num 1, Val.num 11])
        demoWorld).key ∉ person.keys ∧
    (∀ k s, person.lookup k = some s →
      ((invocationWorld (Val.ref funcAddr) personAddr person demoWorld).getObj personAddr).bind
        (fun o1 => o1.lookup k) = some s) ∧
    (∀ (o3 : Obj) (k : Key), k ∈ person.keys →
      (o3.delete (myCall demoProg (Val.ref funcAddr)
          (Val.ref personAddr :: [Val.num 1, Val.num 11]) demoWorld).key).lookup k
        = o3.lookup k) ∧
    (∀ thisVal2 argv2,
      (myCall demoProg thisVal2 argv2
          (myCall demoProg (Val.ref funcAddr) (Val.ref personAddr :: [Val.num 1, Val.num 11])
            demoWorld).world).key
        ≠ (myCall demoProg (Val.ref funcAddr) (Val.ref personAddr :: [Val.num 1, Val.num 11])
            demoWorld).key) :=
  myCall_key_is_fresh demoProg (Val.ref funcAddr) personAddr person [Val.num 1, Val.num 11]
    demoWorld rfl rfl demoProg_mono

/-- C10, the claim as stated fails: `function () { return
Object.getOwnPropertySymbols(this)[0] }` mutates nothing and its result is determined
by the state of its `this` object, yet two calls in sequence through `myCall` on
`person` return two different symbols. -/
theorem myCall_twice_differs :
    (∀ t a w, (firstSymbol t a w).2 = w) ∧
    (∀ a w1 w2, w1.getObj personAddr = w2.getObj personAddr →
      (firstSymbol (Val.ref personAddr) a w1).1 = (firstSymbol (Val.ref personAddr) a w2).1) ∧
    (myCall (only firstSymbol) (Val.ref funcAddr) [Val.ref personAddr] demoWorld).result
      = Completion.normal (Val.sym 0 "key") ∧
    (myCall (only firstSymbol) (Val.ref funcAddr) [Val.ref personAddr]
        (myCall (only firstSymbol) (Val.ref funcAddr) [Val.ref personAddr] demoWorld).world).result
      = Completion.normal (Val.sym 1 "key") ∧
    (myCall (only firstSymbol) (Val.ref funcAddr) [Val.ref personAddr] demoWorld).result
      ≠ (myCall (only firstSymbol) (Val.ref funcAddr) [Val.ref personAddr]
          (myCall (only firstSymbol) (Val.ref funcAddr) [Val.ref personAddr]
            demoWorld).world).result := by
  refine ⟨?_, ?_, by decide, by decide, by decide⟩
  · intro t a w
    unfold firstSymbol
    cases t <;> try rfl
    rename_i addr
    simp only
    cases w.getObj addr with
    | none => rfl
    | some o => simp only; cases o.keys.find? Key.isSym <;> rfl
  · intro a w1 w2 h
    unfold firstSymbol
    simp only [h]
    cases w2.getObj personAddr with
    | none => rfl
    | some o => simp only; cases o.keys.find? Key.isSym <;> rfl

/-- C10, amended: let `F` return normally, not mutate the receiver, never lower the
symbol counter, and let its completion be determined by the receiver as the caller
sees it (without the properties stored under symbols created since the first call
began).  Then two calls of `F.myCall(R, ...A)` in sequence return the same value, and
the receiver after the first call and after the second is the receiver from before
the first. -/
theorem myCall_twice (prog : Prog) (f : Nat) (F : Fn) (r : Nat) (o : Obj)
    (A : List Val) (w : World) (v : Val) (hF : prog f = some F)
    (hget : w.getObj r = some o) (hext : o.extensible = true)
    (hfresh : o.symsBelow w.nextSym = true)
    (hmut : ∀ w', (F (Val.ref r) A w').2.getObj r = w'.getObj r)
    (hmono : ∀ w', w'.nextSym ≤ (F (Val.ref r) A w').2.nextSym)
    (hdet : ∀ w1 w2,
      (w1.getObj r).map (Obj.viewBelow w.nextSym) = (w2.getObj r).map (Obj.viewBelow w.nextSym) →
      (F (Val.ref r) A w1).1 = (F (Val.ref r) A w2).1)
    (hret : (F (Val.ref r) A (invocationWorld (Val.ref f) r o w)).1 = Completion.normal v) :
    (myCall prog (Val.ref f) (Val.ref r :: A) w).result = Completion.normal v ∧
    (myCall prog (Val.ref f) (Val.ref r :: A)
        (myCall prog (Val.ref f) (Val.ref r :: A) w).world).result = Completion.normal v ∧
    (myCall prog (Val.ref f) (Val.ref r :: A) w).world.getObj r = some o ∧
    (myCall prog (Val.ref f) (Val.ref r :: A)
        (myCall prog (Val.ref f) (Val.ref r :: A) w).world).world.getObj r = some o := by
  obtain ⟨h1, h2, h3⟩ :=
    myCall_run_unmutated prog f F r o A w v hF hget hext hfresh hmut hret
  have hlt : w.nextSym ≤ (myCall prog (Val.ref f) (Val.ref r :: A) w).world.nextSym := by
    rw [h3]
    have := hmono (invocationWorld (Val.ref f) r o w)
    have hw : (invocationWorld (Val.ref f) r o w).nextSym = w.nextSym + 1 := rfl
    omega
  have hfresh2 : o.symsBelow (myCall prog (Val.ref f) (Val.ref r :: A) w).world.nextSym = true :=
    all_below_mono o.props _ _ hlt hfresh
  have hview : ((invocationWorld (Val.ref f) r o
        (myCall prog (Val.ref f) (Val.ref r :: A) w).world).getObj r).map
          (Obj.viewBelow w.nextSym)
      = ((invocationWorld (Val.ref f) r o w).getObj r).map (Obj.viewBelow w.nextSym) := by
    rw [invocationWorld_getObj _ r o _ h2, invocationWorld_getObj _ r o _ hget]
    simp only [Option.map_some']
    rw [Obj.viewBelow_set_fresh o w.nextSym _ "key" _ hfresh hlt hext,
      Obj.viewBelow_set_fresh o w.nextSym _ "key" _ hfresh (le_refl _) hext]
  have hret2 : (F (Val.ref r) A (invocationWorld (Val.ref f) r o
      (myCall prog (Val.ref f) (Val.ref r :: A) w).world)).1 = Completion.normal v := by
    rw [hdet _ _ hview]
    exact hret
  obtain ⟨k1, k2, _⟩ :=
    myCall_run_unmutated prog f F r o A _ v hF h2 hext hfresh2 hmut hret2
  exact ⟨h1, k1, h2, k2⟩

/-- Instance of the amended C10: the demo call made twice returns `12` both times and
leaves `person` as it was. -/
theorem myCall_twice_witness :
    demoRun.result = Completion.normal (Val.num 12) ∧
    (myCall demoProg (Val.ref funcAddr) [Val.ref personAddr, Val.num 1, Val.num 11]
        demoRun.world).result = Completion.normal (Val.num 12) ∧
    demoRun.world.getObj personAddr = some person ∧
    (myCall demoProg (Val.ref funcAddr) [Val.ref personAddr, Val.num 1, Val.num 11]
        demoRun.world).world.getObj personAddr = some person :=
  myCall_twice demoProg funcAddr func personAddr person [Val.num 1, Val.num 11] demoWorld
    (Val.num 12) rfl rfl rfl rfl
    (fun w => by
      unfold func
      simp only [consoleLog]
      split <;> rfl)
    (fun w => le_of_eq (func_nextSym _ _ w).symm)
    (fun w1 w2 _ => by
      unfold func
      simp only [consoleLog]
      split <;> rfl)
    rfl

end MyCall
